import Mathlib

/-!
Verification development for the QuizzApi adaptive practice engine.

The definitions below are a shallow embedding of the Go source:
string handling and the answer verifier come from utils/utils.go,
the choice shuffle and the next-question selector from db/questions_db.go,
and progress recording, stats and streaks from the progress database file.
SQL queries are embedded as list transformations over explicit row lists;
each db.Exec or db.Query that can fail takes an explicit Option String
argument carrying the error the storage layer would report, so error
propagation is part of the model.
-/

deriving instance DecidableEq for Except

namespace QuizzApi

/-! ## String utilities (strings.TrimSpace / ToLower / Split from Go) -/

/-- Whitespace predicate used by strings.TrimSpace (ASCII part of unicode.IsSpace). -/
def goIsSpace (c : Char) : Bool :=
  c == ' ' || c == '\t' || c == '\n' || c == '\x0b' || c == '\x0c' || c == '\r'

/-- strings.TrimSpace on the character list. -/
def trimChars (l : List Char) : List Char :=
  ((l.dropWhile goIsSpace).reverse.dropWhile goIsSpace).reverse

/-- strings.TrimSpace. -/
def trimSpace (s : String) : String :=
  String.mk (trimChars s.data)

/-- strings.ToLower (ASCII case mapping). -/
def toLowerGo (s : String) : String :=
  String.mk (s.data.map Char.toLower)

/-- NormalizeAnswer from utils/utils.go: lowercase the trimmed answer. -/
def NormalizeAnswer (answer : String) : String :=
  toLowerGo (trimSpace answer)

/-- strings.Split(s, ",") on the character list: fields between commas, kept even when empty. -/
def splitCommaChars : List Char → List (List Char)
  | [] => [[]]
  | c :: rest =>
    if c == ',' then [] :: splitCommaChars rest
    else
      match splitCommaChars rest with
      | [] => [[c]]
      | f :: fs => (c :: f) :: fs

/-- strings.Split(s, ","). -/
def splitComma (s : String) : List String :=
  (splitCommaChars s.data).map String.mk

/-- True when the last character of the list is c (strings.HasSuffix with a one-character suffix). -/
def lastCharIs (c : Char) : List Char → Bool
  | [] => false
  | [x] => x == c
  | _ :: x :: xs => lastCharIs c (x :: xs)

/-! ## JSON string-array parsing (encoding/json.Unmarshal into a Go string slice) -/

/-- JSON insignificant whitespace. -/
def jsonWs (c : Char) : Bool :=
  c == ' ' || c == '\t' || c == '\n' || c == '\r'

/-- Skip JSON whitespace. -/
def skipWs (l : List Char) : List Char :=
  l.dropWhile jsonWs

/-- Decode one JSON escape character (the common escapes of the data in this system). -/
def jsonEscapeChar (e : Char) : Option Char :=
  if e == '"' then some '"'
  else if e == '\\' then some '\\'
  else if e == '/' then some '/'
  else if e == 'n' then some '\n'
  else if e == 't' then some '\t'
  else if e == 'r' then some '\r'
  else none

/-- Parse the body of a JSON string after the opening quote; returns the
content and the remaining input after the closing quote. -/
def parseJsonStringBody : List Char → Option (List Char × List Char)
  | [] => none
  | '"' :: rest => some ([], rest)
  | '\\' :: rest =>
    match rest with
    | [] => none
    | e :: rest2 =>
      match jsonEscapeChar e with
      | none => none
      | some c =>
        match parseJsonStringBody rest2 with
        | none => none
        | some (cs, r) => some (c :: cs, r)
  | c :: rest =>
    match parseJsonStringBody rest with
    | none => none
    | some (cs, r) => some (c :: cs, r)

/-- Parse the elements of a JSON array of strings, positioned after the
opening bracket, consuming the closing bracket. Fuel bounds recursion. -/
def parseJsonArrayElems : Nat → List Char → Option (List String × List Char)
  | 0, _ => none
  | fuel + 1, l =>
    match skipWs l with
    | ']' :: rest => some ([], rest)
    | '"' :: rest =>
      match parseJsonStringBody rest with
      | none => none
      | some (content, r) =>
        match skipWs r with
        | ',' :: r2 =>
          match parseJsonArrayElems fuel r2 with
          | none => none
          | some (elems, rest2) =>
            if elems.isEmpty then none
            else some (String.mk content :: elems, rest2)
        | ']' :: r2 => some ([String.mk content], r2)
        | _ => none
    | _ => none

/-- json.Unmarshal of the input into a Go string slice: a complete JSON
array of strings, with surrounding whitespace allowed, and nothing after. -/
def parseJsonStringArray (s : String) : Option (List String) :=
  match skipWs s.data with
  | '[' :: rest =>
    match parseJsonArrayElems (rest.length + 1) rest with
    | none => none
    | some (elems, r) => if (skipWs r).isEmpty then some elems else none
  | _ => none

/-! ## The question row and the answer verifier (utils/utils.go) -/

/-- A row of the questions table (timestamps omitted; they feed no comparison here). -/
structure Question where
  id : Nat
  category : String
  question : String
  questionType : String
  choices : List String
  answer : String
  keywords : List String
  difficulty : String
  createdBy : Nat
  status : String
  approvedBy : Option Nat
deriving Repr, DecidableEq

/-- Detection of a declared-JSON user answer in checkMultipleSelectAnswer:
strings.HasPrefix(ua, open bracket) and strings.HasSuffix(ua, close bracket). -/
def msBracketed (ua : String) : Bool :=
  match ua.data with
  | [] => false
  | c :: rest => c == '[' && lastCharIs ']' (c :: rest)

/-- The user-answer parse of checkMultipleSelectAnswer: a JSON array when the
trimmed input is bracketed, the empty list when empty, else comma-separated
with each segment trimmed. -/
def parseUserMultiSelect (userAnswer : String) : Option (List String) :=
  let ua := trimSpace userAnswer
  if msBracketed ua then parseJsonStringArray ua
  else if ua.data.isEmpty then some []
  else some ((splitComma ua).map trimSpace)

/-- The verdict checkMultipleSelectAnswer computes once both sides are parsed:
equal list lengths, and every normalized user element is a member of the set
of normalized correct answers. -/
def msVerdict (correctAnswers userAnswers : List String) : Bool :=
  if correctAnswers.length != userAnswers.length then false
  else userAnswers.all fun u =>
    (correctAnswers.map NormalizeAnswer).contains (NormalizeAnswer u)

/-- checkMultipleSelectAnswer from utils/utils.go. A parse failure of either
side is reported as incorrect. -/
def checkMultipleSelectAnswer (correctAnswerJSON userAnswer : String) : Bool :=
  match parseJsonStringArray correctAnswerJSON with
  | none => false
  | some correctAnswers =>
    match parseUserMultiSelect userAnswer with
    | none => false
    | some userAnswers => msVerdict correctAnswers userAnswers

/-- CheckAnswer from utils/utils.go: the switch on the question type. -/
def CheckAnswer (question : Question) (userAnswer : String) : Bool :=
  if question.questionType == "open_text" then
    NormalizeAnswer userAnswer == NormalizeAnswer question.answer
  else if question.questionType == "multiple_choice" || question.questionType == "true_false" then
    NormalizeAnswer userAnswer == NormalizeAnswer question.answer
  else if question.questionType == "multiple_select" then
    checkMultipleSelectAnswer question.answer userAnswer
  else
    false

/-! ## Choice shuffle (shuffleChoices in db/questions_db.go) -/

/-- One simultaneous swap of positions i and j, as in the Go assignment
that exchanges shuffled at i with shuffled at j. -/
def listSwap (l : List String) (i j : Nat) : List String :=
  (l.set i (l.getD j "")).set j (l.getD i "")

/-- The Fisher-Yates loop of shuffleChoices, indices counting down to 1.
The function r models the random source: r i is the value rand.Intn(i+1)
returned at loop index i, so a faithful run has r i at most i. -/
def fisherYatesAux (r : Nat → Nat) : Nat → List String → List String
  | 0, l => l
  | k + 1, l => fisherYatesAux r k (listSwap l (k + 1) (r (k + 1)))

/-- shuffleChoices from db/questions_db.go: lists of length at most one are
returned unchanged, otherwise the Fisher-Yates loop runs from the last index. -/
def shuffleChoices (r : Nat → Nat) (choices : List String) : List String :=
  if choices.length ≤ 1 then choices
  else fisherYatesAux r (choices.length - 1) choices

/-! ## Progress rows, ordering and streaks -/

/-- A row of the progress table. Timestamps are Nat instants. -/
structure ProgressEntry where
  id : Nat
  userId : Nat
  questionId : Nat
  userAnswer : String
  isCorrect : Bool
  answeredAt : Nat
  timeTakenSeconds : Nat
deriving Repr, DecidableEq

/-- Insert into a list sorted by the boolean comparison le. -/
def insertLE {α : Type} (le : α → α → Bool) (a : α) : List α → List α
  | [] => [a]
  | b :: t => if le a b then a :: b :: t else b :: insertLE le a t

/-- Insertion sort by the boolean comparison le; the embedding of an SQL
ORDER BY, which promises a sorted permutation and nothing about ties. -/
def sortByLE {α : Type} (le : α → α → Bool) : List α → List α
  | [] => []
  | a :: t => insertLE le a (sortByLE le t)

/-- ORDER BY answered_at DESC. -/
def sortByAnsweredDesc (l : List ProgressEntry) : List ProgressEntry :=
  sortByLE (fun a b => decide (b.answeredAt ≤ a.answeredAt)) l

/-- WHERE user_id = userId. -/
def userProgress (progress : List ProgressEntry) (userId : Nat) : List ProgressEntry :=
  progress.filter fun e => e.userId == userId

/-- WHERE user_id = userId AND question_id = qid (one partition of the
PARTITION BY question_id window in the selector query). -/
def userQuestionProgress (progress : List ProgressEntry) (userId qid : Nat) : List ProgressEntry :=
  progress.filter fun e => e.userId == userId && e.questionId == qid

/-- The counting loop of getCurrentStreak: increment while the scanned row
is correct, stop at the first incorrect row. -/
def streakLoop : List Bool → Nat
  | [] => 0
  | b :: rest => if b then streakLoop rest + 1 else 0

/-- getCurrentStreak from the progress database file: scan is_correct over
the 50 most recent rows of the user, most recent first; when the streak
query itself fails the Go code logs and returns 0 instead of an error. -/
def getCurrentStreak (failQuery : Bool) (progress : List ProgressEntry) (userId : Nat) : Nat :=
  if failQuery then 0
  else streakLoop
    (((sortByAnsweredDesc (userProgress progress userId)).take 50).map (·.isCorrect))

/-! ## Next-question selector (GetNextQuestionsForUser in db/questions_db.go) -/

/-- The rn = 1 row of the last_progress window: the most recent progress row
of this user for this question. -/
def lastProgress (progress : List ProgressEntry) (userId qid : Nat) : Option ProgressEntry :=
  (sortByAnsweredDesc (userQuestionProgress progress userId qid)).head?

/-- The correct_streak subquery: rows of the partition numbered by recency
(ROW_NUMBER starting at 1), kept when rn is at most 10 and is_correct, then
counted. -/
def recentStreak (progress : List ProgressEntry) (userId qid : Nat) : Nat :=
  (((sortByAnsweredDesc (userQuestionProgress progress userId qid)).enum).filter
    (fun p => decide (p.1 + 1 ≤ 10) && p.2.isCorrect)).length

/-- The three ORDER BY keys of the selector query for one question row:
never-answered flag (NULL window row sorts as 0), last-outcome flag
(is_correct = 0 sorts as 0, correct or NULL as 1), last answered_at
(NULL sorting before every real instant, encoded 0 in the first tier). -/
def selKey (progress : List ProgressEntry) (userId : Nat) (q : Question) : Nat × Nat × Nat :=
  match lastProgress progress userId q.id with
  | none => (0, 1, 0)
  | some e => (1, if e.isCorrect then 1 else 0, e.answeredAt)

/-- Lexicographic comparison of the key triples. -/
def tripleLE (a b : Nat × Nat × Nat) : Bool :=
  decide (a.1 < b.1) ||
    (a.1 == b.1 &&
      (decide (a.2.1 < b.2.1) || (a.2.1 == b.2.1 && decide (a.2.2 ≤ b.2.2))))

/-- The ORDER BY comparison between two candidate questions. -/
def selLE (progress : List ProgressEntry) (userId : Nat) (a b : Question) : Bool :=
  tripleLE (selKey progress userId a) (selKey progress userId b)

/-- The presentation shuffle applied to each returned row: choices of
multiple_choice and multiple_select questions are shuffled. -/
def shuffleIfChoiceType (r : Nat → Nat) (q : Question) : Question :=
  if q.questionType == "multiple_choice" || q.questionType == "multiple_select" then
    { q with choices := shuffleChoices r q.choices }
  else q

/-- The row list GetNextQuestionsForUser builds in the non-failing run:
approved questions, ordered by the composite key, limited to count, each
returned row shuffled for presentation. The family rf gives every question
its own random stream, indexed by question id. -/
def selectNextRows (rf : Nat → Nat → Nat) (questions : List Question)
    (progress : List ProgressEntry) (userId count : Nat) : List Question :=
  (((sortByLE (selLE progress userId)
      (questions.filter fun q => q.status == "approved")).take count).map
    fun q => shuffleIfChoiceType (rf q.id) q)

/-- GetNextQuestionsForUser from db/questions_db.go: a failing query is
returned to the caller unchanged; otherwise the ordered row list. -/
def GetNextQuestionsForUser (failQuery : Option String) (rf : Nat → Nat → Nat)
    (questions : List Question) (progress : List ProgressEntry)
    (userId count : Nat) : Except String (List Question) :=
  match failQuery with
  | some e => Except.error e
  | none => Except.ok (selectNextRows rf questions progress userId count)

/-! ## Stats aggregator (GetUserStats in the progress database file) -/

/-- Per-category answered and correct counts. -/
structure CategoryStat where
  answered : Nat
  correct : Nat
deriving Repr, DecidableEq

/-- The derived stats record. Accuracy is the exact ratio. -/
structure Stats where
  totalQuestions : Nat
  answered : Nat
  correct : Nat
  accuracy : Rat
  streak : Nat
  categories : List (String × CategoryStat)
deriving Repr, DecidableEq

/-- Which of the four reads of GetUserStats fail, and with which error. -/
structure StatsQueryFailures where
  totalCount : Option String
  progressAgg : Option String
  streakQuery : Option String
  categoryQuery : Option String
deriving Repr, DecidableEq

/-- The category GROUP BY of GetUserStats: each user progress row joined to
its question category together with its correctness flag. -/
def joinedCategories (questions : List Question) (up : List ProgressEntry) :
    List (String × Bool) :=
  up.filterMap fun e =>
    (questions.find? fun q => q.id == e.questionId).map fun q => (q.category, e.isCorrect)

/-- The grouped category stats of GetUserStats. -/
def categoryStats (questions : List Question) (up : List ProgressEntry) :
    List (String × CategoryStat) :=
  let rows := joinedCategories questions up
  (rows.map Prod.fst).dedup.map fun c =>
    let cr := rows.filter fun r => r.1 == c
    (c, ⟨cr.length, (cr.filter (·.2)).length⟩)

/-- GetUserStats from the progress database file. The three scalar or row
queries that fail return their error to the caller unchanged; the streak
query is the exception, its failure is absorbed inside getCurrentStreak. -/
def GetUserStats (f : StatsQueryFailures) (questions : List Question)
    (progress : List ProgressEntry) (userId : Nat) : Except String Stats :=
  match f.totalCount with
  | some e => Except.error e
  | none =>
    let totalQuestions := questions.length
    match f.progressAgg with
    | some e => Except.error e
    | none =>
      let up := userProgress progress userId
      let answered := up.length
      let correct := (up.filter (·.isCorrect)).length
      let accuracy : Rat := if answered > 0 then (correct : Rat) / (answered : Rat) else 0
      let streak := getCurrentStreak f.streakQuery.isSome progress userId
      match f.categoryQuery with
      | some e => Except.error e
      | none =>
        Except.ok
          { totalQuestions := totalQuestions
            answered := answered
            correct := correct
            accuracy := accuracy
            streak := streak
            categories := categoryStats questions up }

/-! ## Database state and the stateful operations -/

/-- The stored state the claims observe: the questions table, the progress
table, and the next progress row id. -/
structure DBState where
  questions : List Question
  progress : List ProgressEntry
  nextProgressId : Nat
deriving Repr, DecidableEq

/-- SELECT of one question row by id (the stored row; the presentation
shuffle of GetQuestionByID touches no stored field and no comparison). -/
def findQuestion (qs : List Question) (id : Nat) : Option Question :=
  qs.find? fun q => q.id == id

/-- The request body of a progress recording. -/
structure ProgressRequest where
  questionId : Nat
  userAnswer : String
  timeTakenSeconds : Nat
deriving Repr, DecidableEq

/-- The error string database/sql returns for a missing row. -/
def errNoRows : String := "sql: no rows in result set"

/-- RecordProgress from the progress database file: look the question up,
judge the raw answer, then insert one progress row; a failed lookup or a
failed insert returns the error with the ledger untouched. The instant now
models CURRENT_TIMESTAMP. -/
def RecordProgress (failInsert : Option String) (st : DBState) (userId : Nat)
    (req : ProgressRequest) (now : Nat) : Except String ProgressEntry × DBState :=
  match findQuestion st.questions req.questionId with
  | none => (Except.error errNoRows, st)
  | some question =>
    let isCorrect := CheckAnswer question req.userAnswer
    match failInsert with
    | some e => (Except.error e, st)
    | none =>
      let entry : ProgressEntry :=
        { id := st.nextProgressId
          userId := userId
          questionId := req.questionId
          userAnswer := req.userAnswer
          isCorrect := isCorrect
          answeredAt := now
          timeTakenSeconds := req.timeTakenSeconds }
      (Except.ok entry,
        { st with progress := st.progress ++ [entry], nextProgressId := st.nextProgressId + 1 })

/-- The request body of a question create or update. -/
structure QuestionRequest where
  category : String
  question : String
  questionType : String
  choices : List String
  answer : String
  keywords : List String
  difficulty : String
  status : String
deriving Repr, DecidableEq

/-- Session.CanEditQuestion from models: admins and moderators edit any
question, users only their own pending questions. -/
def CanEditQuestion (userId : Nat) (role : String) (question : Question) : Bool :=
  if role == "admin" || role == "moderator" then true
  else userId == question.createdBy && question.status == "pending"

/-- The closed set of question types. -/
def validTypes : List String := ["open_text", "multiple_choice", "true_false", "multiple_select"]

/-- The question type an update resolves to: the lowered trimmed request
type, or the current type when the request leaves it empty. -/
def resolveType (req : QuestionRequest) (current : Question) : String :=
  let qt := toLowerGo (trimSpace req.questionType)
  if qt.data.isEmpty then current.questionType else qt

/-- UpdateQuestionWithAuth from db/questions_db.go. The UPDATE statement and
the progress DELETE are two separate statements with no transaction around
them: when the DELETE fails the function returns the error while the state
already carries the committed UPDATE. -/
def UpdateQuestionWithAuth (failUpdate failDelete : Option String) (st : DBState)
    (id : Nat) (req : QuestionRequest) (userId : Nat) (role : String) :
    Except String Question × DBState :=
  match findQuestion st.questions id with
  | none => (Except.error errNoRows, st)
  | some current =>
    if ¬ CanEditQuestion userId role current then
      (Except.error "insufficient permissions to edit this question", st)
    else
      let questionType := resolveType req current
      if ¬ validTypes.contains questionType then
        (Except.error "invalid question type", st)
      else
        let status :=
          if ¬ req.status.data.isEmpty && (role == "admin" || role == "moderator") then req.status
          else current.status
        let approvedBy :=
          if status == "approved" && current.status != "approved" then some userId
          else current.approvedBy
        match failUpdate with
        | some e => (Except.error e, st)
        | none =>
          let updated : Question :=
            { current with
                category := req.category
                question := req.question
                questionType := questionType
                choices := req.choices
                answer := req.answer
                keywords := req.keywords
                difficulty := req.difficulty
                status := status
                approvedBy := approvedBy }
          let st1 : DBState :=
            { st with questions := st.questions.map fun q => if q.id == id then updated else q }
          if current.answer != req.answer then
            match failDelete with
            | some e => (Except.error e, st1)
            | none =>
              (Except.ok updated,
                { st1 with progress := st1.progress.filter fun e => ¬ (e.questionId == id) })
          else
            (Except.ok updated, st1)

/-! ## Helper lemmas: insertion sort -/

theorem insertLE_perm {α : Type} (le : α → α → Bool) (a : α) :
    ∀ l : List α, (insertLE le a l).Perm (a :: l)
  | [] => List.Perm.refl _
  | b :: t => by
    unfold insertLE
    by_cases h : le a b = true
    · simp [h]
    · simp only [Bool.not_eq_true] at h
      simp only [h, Bool.false_eq_true, if_false]
      exact ((insertLE_perm le a t).cons b).trans (List.Perm.swap a b t)

theorem sortByLE_perm {α : Type} (le : α → α → Bool) :
    ∀ l : List α, (sortByLE le l).Perm l
  | [] => List.Perm.refl _
  | a :: t =>
    (insertLE_perm le a (sortByLE le t)).trans ((sortByLE_perm le t).cons a)

theorem mem_insertLE {α : Type} {le : α → α → Bool} {a x : α} {l : List α} :
    x ∈ insertLE le a l ↔ x = a ∨ x ∈ l := by
  rw [(insertLE_perm le a l).mem_iff]
  simp

theorem pairwise_insertLE {α : Type} (le : α → α → Bool)
    (htrans : ∀ ⦃x y z⦄, le x y = true → le y z = true → le x z = true)
    (htot : ∀ x y, le x y = true ∨ le y x = true) (a : α) :
    ∀ l : List α, l.Pairwise (fun x y => le x y = true) →
      (insertLE le a l).Pairwise (fun x y => le x y = true)
  | [], _ => by simp [insertLE]
  | b :: t, h => by
    rw [List.pairwise_cons] at h
    obtain ⟨hb, ht⟩ := h
    unfold insertLE
    by_cases hab : le a b = true
    · simp only [hab, if_true]
      rw [List.pairwise_cons]
      refine ⟨?_, List.pairwise_cons.mpr ⟨hb, ht⟩⟩
      intro x hx
      rcases List.mem_cons.mp hx with rfl | hxt
      · exact hab
      · exact htrans hab (hb x hxt)
    · have hba : le b a = true := (htot a b).resolve_left hab
      simp only [Bool.not_eq_true] at hab
      simp only [hab, Bool.false_eq_true, if_false]
      rw [List.pairwise_cons]
      refine ⟨?_, pairwise_insertLE le htrans htot a t ht⟩
      intro x hx
      rcases mem_insertLE.mp hx with rfl | hxt
      · exact hba
      · exact hb x hxt

theorem pairwise_sortByLE {α : Type} (le : α → α → Bool)
    (htrans : ∀ ⦃x y z⦄, le x y = true → le y z = true → le x z = true)
    (htot : ∀ x y, le x y = true ∨ le y x = true) :
    ∀ l : List α, (sortByLE le l).Pairwise (fun x y => le x y = true)
  | [] => by simp [sortByLE]
  | a :: t => pairwise_insertLE le htrans htot a _ (pairwise_sortByLE le htrans htot t)

/-! ## Helper lemmas: swaps and the Fisher-Yates loop -/

theorem cons_set_perm : ∀ (t : List String) (s : Nat) (a : String), s < t.length →
    (t.getD s "" :: t.set s a).Perm (a :: t)
  | [], s, a, h => by simp at h
  | x :: u, 0, a, _ => by
    simpa using List.Perm.swap a x u
  | x :: u, s + 1, a, h => by
    have ih := cons_set_perm u s a (by simpa using h)
    have s1 : (u.getD s "" :: x :: u.set s a).Perm (x :: u.getD s "" :: u.set s a) :=
      List.Perm.swap x (u.getD s "") (u.set s a)
    have s2 : (x :: u.getD s "" :: u.set s a).Perm (x :: a :: u) := ih.cons x
    have s3 : (x :: a :: u).Perm (a :: x :: u) := List.Perm.swap a x u
    simpa using (s1.trans s2).trans s3

theorem listSwap_perm : ∀ (l : List String) (i j : Nat), i < l.length → j < l.length →
    (listSwap l i j).Perm l
  | [], i, _, hi, _ => by simp at hi
  | x :: u, 0, 0, _, _ => by
    simp [listSwap]
  | x :: u, 0, j + 1, _, hj => by
    simpa [listSwap] using cons_set_perm u j x (by simpa using hj)
  | x :: u, i + 1, 0, hi, _ => by
    simpa [listSwap] using cons_set_perm u i x (by simpa using hi)
  | x :: u, i + 1, j + 1, hi, hj => by
    have ih := listSwap_perm u i j (by simpa using hi) (by simpa using hj)
    simpa [listSwap] using ih.cons x

theorem fisherYatesAux_perm (r : Nat → Nat) (hr : ∀ i, r i ≤ i) :
    ∀ (k : Nat) (l : List String), k < l.length → (fisherYatesAux r k l).Perm l
  | 0, l, _ => List.Perm.refl l
  | k + 1, l, h => by
    have hj : r (k + 1) < l.length := Nat.lt_of_le_of_lt (hr (k + 1)) h
    have hswap := listSwap_perm l (k + 1) (r (k + 1)) h hj
    have hlen := hswap.length_eq
    have ih := fisherYatesAux_perm r hr k (listSwap l (k + 1) (r (k + 1)))
      (by rw [hlen]; omega)
    exact (by simpa [fisherYatesAux] using ih.trans hswap)

/-! ## Helper lemmas: streak counting -/

theorem streakLoop_eq : ∀ bs : List Bool, streakLoop bs = (bs.takeWhile fun b => b).length
  | [] => rfl
  | b :: t => by
    cases b <;> simp [streakLoop, List.takeWhile_cons, streakLoop_eq t]

theorem takeWhile_map_len {α β : Type} (f : α → β) (p : β → Bool) :
    ∀ l : List α, ((l.map f).takeWhile p).length = (l.takeWhile fun a => p (f a)).length
  | [] => rfl
  | a :: t => by
    by_cases h : p (f a) <;>
      simp [List.takeWhile_cons, h, takeWhile_map_len f p t]

theorem takeWhile_take_len {α : Type} (p : α → Bool) :
    ∀ (l : List α) (n : Nat), ((l.take n).takeWhile p).length = min (l.takeWhile p).length n
  | _, 0 => by simp
  | [], n => by simp
  | a :: t, n + 1 => by
    by_cases h : p a = true
    · simp only [List.take_succ_cons, List.takeWhile_cons, h, if_true, List.length_cons]
      rw [takeWhile_take_len p t n]
      omega
    · simp [List.take_succ_cons, List.takeWhile_cons, h]

theorem len_takeWhile_le_filter {α : Type} (p : α → Bool) :
    ∀ l : List α, (l.takeWhile p).length ≤ (l.filter p).length
  | [] => Nat.le_refl 0
  | a :: t => by
    by_cases h : p a = true
    · simpa [List.takeWhile_cons, List.filter_cons, h] using
        Nat.succ_le_succ (len_takeWhile_le_filter p t)
    · simp [List.takeWhile_cons, h]

/-! ## Helper lemmas: windowed row numbering (the rn column) -/

theorem enumFrom_filter_none {α : Type} (p : α → Bool) (K : Nat) :
    ∀ (l : List α) (k : Nat), K ≤ k →
      ((List.enumFrom k l).filter fun x => decide (x.1 + 1 ≤ K) && p x.2) = []
  | [], _, _ => rfl
  | a :: t, k, hK => by
    rw [List.enumFrom_cons, List.filter_cons]
    have hc : (decide (k + 1 ≤ K) && p a) = false := by
      have : ¬ (k + 1 ≤ K) := by omega
      simp [this]
    simp only [hc, Bool.false_eq_true, if_false]
    exact enumFrom_filter_none p K t (k + 1) (by omega)

theorem enumFrom_filter_len {α : Type} (p : α → Bool) (K : Nat) :
    ∀ (l : List α) (k : Nat),
      ((List.enumFrom k l).filter fun x => decide (x.1 + 1 ≤ K) && p x.2).length
        = ((l.take (K - k)).filter p).length
  | [], k => by simp
  | a :: t, k => by
    by_cases hk : k + 1 ≤ K
    · have h1 : K - k = (K - (k + 1)) + 1 := by omega
      rw [List.enumFrom_cons, List.filter_cons, h1, List.take_succ_cons, List.filter_cons]
      by_cases hp : p a = true <;>
        simp [hk, hp, enumFrom_filter_len p K t (k + 1)]
    · have h0 : K - k = 0 := by omega
      rw [h0, enumFrom_filter_none p K (a :: t) k (by omega)]
      simp

/-! ## Sample rows used by concrete witnesses and counterexamples -/

/-- A concrete open_text question. -/
def qOpenText : Question :=
  ⟨1, "geography", "Capital of France?", "open_text", [], "Paris", [], "easy", 2, "approved", none⟩

/-- A concrete multiple_select question with canonical answers a and b. -/
def qMultiSelect : Question :=
  ⟨2, "letters", "Pick the letters", "multiple_select", ["a", "b", "c"], "[\"a\",\"b\"]", [],
    "easy", 2, "approved", none⟩

/-- A concrete multiple_select question with canonical answers stored as b then a. -/
def qMultiSelectBA : Question :=
  ⟨3, "letters", "Pick the letters", "multiple_select", ["a", "b"], "[\"b\",\"a\"]", [],
    "easy", 2, "approved", none⟩

/-- A correct progress row for question 1 at instant 3. -/
def entryCorrectOld : ProgressEntry := ⟨1, 5, 1, "paris", true, 3, 10⟩

/-- An incorrect progress row for question 1 at the later instant 7. -/
def entryIncorrectNew : ProgressEntry := ⟨2, 5, 1, "lyon", false, 7, 10⟩

/-- A progress row of another user for question 2. -/
def entryOtherQ : ProgressEntry := ⟨3, 6, 2, "y", true, 4, 2⟩

/-- A concrete database state: question 1 plus history on questions 1 and 2. -/
def stUpd : DBState := ⟨[qOpenText], [entryCorrectOld, entryIncorrectNew, entryOtherQ], 4⟩

/-- An update request changing the answer of question 1 to Lyon. -/
def reqNewAnswer : QuestionRequest :=
  ⟨"geography", "Capital of France?", "", [], "Lyon", [], "easy", ""⟩

/-! ## C4: simple-type verification is normalized equality -/

/-- C4: for every open_text, multiple_choice or true_false question and every
raw user answer, CheckAnswer is true exactly when the trimmed lowercased user
answer equals the trimmed lowercased canonical answer, and in particular the
questions judge a padded mixed-case submission exactly like its lowercase form. -/
theorem checkAnswer_simple_types (q : Question) (u : String)
    (h : q.questionType = "open_text" ∨ q.questionType = "multiple_choice" ∨
      q.questionType = "true_false") :
    CheckAnswer q u = (NormalizeAnswer u == NormalizeAnswer q.answer)
    ∧ CheckAnswer q " Paris " = CheckAnswer q "paris" := by
  have hmain : ∀ v : String,
      CheckAnswer q v = (NormalizeAnswer v == NormalizeAnswer q.answer) := by
    intro v
    rcases h with h | h | h <;> simp [CheckAnswer, h]
  refine ⟨hmain u, ?_⟩
  rw [hmain " Paris ", hmain "paris"]
  have hnorm : NormalizeAnswer " Paris " = NormalizeAnswer "paris" := by decide
  rw [hnorm]

/-- Witness for C4 at a concrete question and answers. -/
theorem checkAnswer_simple_types_witness :
    CheckAnswer qOpenText " Paris " = CheckAnswer qOpenText "paris"
    ∧ CheckAnswer qOpenText "  pArIs " = true :=
  ⟨(checkAnswer_simple_types qOpenText "x" (Or.inl rfl)).2,
   by rw [(checkAnswer_simple_types qOpenText "  pArIs " (Or.inl rfl)).1]; decide⟩

/-! ## C1: multiple_select verification -/

/-- Modelled from the claim wording only, for comparison with the code: exact
set equality of the normalized submitted elements and the canonical set, with
equal cardinality and duplicates not deduplicated. -/
def claimExactSetEqual (canonical submitted : List String) : Bool :=
  submitted.length == canonical.length
    && canonical.all (fun c => (submitted.map NormalizeAnswer).contains (NormalizeAnswer c))
    && submitted.all (fun s => (canonical.map NormalizeAnswer).contains (NormalizeAnswer s))

/-- C1 counterexample: the code judges the duplicate submission a,a against
canonical a and b as correct, while the exact-set-equality rule of the claim
judges it incorrect. -/
theorem checkMultipleSelect_duplicate_counterexample :
    CheckAnswer qMultiSelect "a,a" = true
    ∧ claimExactSetEqual ["a", "b"] ["a", "a"] = false := by decide

/-- C1 amended: for every multiple_select question whose stored canonical
answer parses, CheckAnswer is true exactly when the submitted answer parses
(JSON array when the trimmed input is bracketed, comma-separated otherwise,
empty input giving the empty list), has the same number of elements as the
canonical list, and every normalized submitted element appears in the
normalized canonical set; a duplicated correct element also counts toward the
cardinality, so a,a against canonical a and b is judged correct. -/
theorem checkMultipleSelect_amended (q : Question) (u : String) (ca : List String)
    (hty : q.questionType = "multiple_select")
    (hca : parseJsonStringArray q.answer = some ca) :
    CheckAnswer q u = true ↔
      ∃ us, parseUserMultiSelect u = some us ∧ us.length = ca.length ∧
        ∀ s ∈ us, NormalizeAnswer s ∈ ca.map NormalizeAnswer := by
  have h1 : CheckAnswer q u = checkMultipleSelectAnswer q.answer u := by
    simp [CheckAnswer, hty]
  rw [h1]
  unfold checkMultipleSelectAnswer
  rw [hca]
  cases hus : parseUserMultiSelect u with
  | none => simp
  | some us =>
    simp only [Option.some.injEq]
    constructor
    · intro hv
      refine ⟨us, rfl, ?_⟩
      unfold msVerdict at hv
      by_cases hl : ca.length = us.length
      · simp only [bne, hl, beq_self_eq_true, Bool.not_true, Bool.false_eq_true, if_false] at hv
        rw [List.all_eq_true] at hv
        refine ⟨hl.symm, fun s hs => ?_⟩
        have := hv s hs
        simpa [List.contains, List.elem_iff] using this
      · exfalso
        have hb : (ca.length != us.length) = true := by
          simp [bne, hl]
        rw [hb] at hv
        simp at hv
    · rintro ⟨us', heq, hlen, hmem⟩
      obtain rfl : us = us' := heq
      unfold msVerdict
      have hb : (ca.length != us.length) = false := by
        simp [bne, hlen]
      rw [hb]
      simp only [Bool.false_eq_true, if_false]
      rw [List.all_eq_true]
      intro s hs
      simpa [List.contains, List.elem_iff] using hmem s hs

/-- Witness for C1 amended: order independence at the concrete canonical list
b, a against the submission a, B. -/
theorem checkMultipleSelect_amended_witness :
    CheckAnswer qMultiSelectBA "a, B" = true :=
  (checkMultipleSelect_amended qMultiSelectBA "a, B" ["b", "a"] rfl (by decide)).mpr
    ⟨["a", "B"], by decide, by decide, by decide⟩

/-! ## C7: the per-question recent streak is a tally, not a leading run -/

/-- Modelled from the claim wording only, for comparison with the code: the
leading run of correct entries scanning from most recent backward, limited to
the 10 most recent attempts. -/
def claimLeadingRun10 (progress : List ProgressEntry) (userId qid : Nat) : Nat :=
  (((sortByAnsweredDesc (userQuestionProgress progress userId qid)).take 10).takeWhile
    (·.isCorrect)).length

/-- C7 counterexample: with a most recent incorrect attempt over an older
correct one, the code computes recentStreak 1 while the leading-correct-run of
the claim is 0. -/
theorem recentStreak_counterexample :
    recentStreak [entryCorrectOld, entryIncorrectNew] 5 1 = 1
    ∧ claimLeadingRun10 [entryCorrectOld, entryIncorrectNew] 5 1 = 0 := by decide

/-- C7 amended: recentStreak is the total number of correct entries among the
10 most recent attempts for that question by this user, scanning most recent
first; it never stops at an incorrect entry, is bounded by 10, and is at
least the leading-correct-run the claim described. -/
theorem recentStreak_amended (progress : List ProgressEntry) (userId qid : Nat) :
    recentStreak progress userId qid
      = (((sortByAnsweredDesc (userQuestionProgress progress userId qid)).take 10).filter
          (·.isCorrect)).length
    ∧ claimLeadingRun10 progress userId qid ≤ recentStreak progress userId qid
    ∧ recentStreak progress userId qid ≤ 10 := by
  have h1 : recentStreak progress userId qid
      = (((sortByAnsweredDesc (userQuestionProgress progress userId qid)).take 10).filter
          (·.isCorrect)).length := by
    unfold recentStreak
    exact enumFrom_filter_len (fun e => e.isCorrect) 10
      (sortByAnsweredDesc (userQuestionProgress progress userId qid)) 0
  refine ⟨h1, ?_, ?_⟩
  · rw [h1]
    exact len_takeWhile_le_filter _ _
  · rw [h1]
    have hf := List.length_filter_le (·.isCorrect)
      ((sortByAnsweredDesc (userQuestionProgress progress userId qid)).take 10)
    have ht : ((sortByAnsweredDesc (userQuestionProgress progress userId qid)).take 10).length ≤ 10 := by
      rw [List.length_take]
      exact Nat.min_le_left _ _
    omega

/-! ## C8: the choice shuffle is a permutation -/

/-- C8: for every random source faithful to rand.Intn and every input list,
shuffleChoices returns a permutation of the input (so the multiset and the
length are preserved), and inputs of length at most one are returned
unchanged. -/
theorem shuffleChoices_perm (r : Nat → Nat) (choices : List String)
    (hr : ∀ i, r i ≤ i) :
    (shuffleChoices r choices).Perm choices
    ∧ (shuffleChoices r choices).length = choices.length
    ∧ (choices.length ≤ 1 → shuffleChoices r choices = choices) := by
  unfold shuffleChoices
  by_cases h : choices.length ≤ 1
  · simp [h]
  · have hlt : choices.length - 1 < choices.length := by omega
    have hp := fisherYatesAux_perm r hr (choices.length - 1) choices hlt
    simp only [h, if_false]
    exact ⟨hp, hp.length_eq, fun hc => hc.elim⟩

/-- Witness for C8 at a concrete random source and inputs. -/
theorem shuffleChoices_perm_witness :
    (shuffleChoices (fun _ => 0) ["x", "y", "z"]).Perm ["x", "y", "z"]
    ∧ shuffleChoices (fun _ => 0) ([] : List String) = []
    ∧ shuffleChoices (fun _ => 0) ["x"] = ["x"] :=
  ⟨(shuffleChoices_perm (fun _ => 0) ["x", "y", "z"] fun i => Nat.zero_le i).1,
   (shuffleChoices_perm (fun _ => 0) [] fun i => Nat.zero_le i).2.2 (by decide),
   (shuffleChoices_perm (fun _ => 0) ["x"] fun i => Nat.zero_le i).2.2 (by decide)⟩

/-! ## C5: the global streak -/

/-- C5: the global streak is the length of the leading run of correct entries
at the head of the user history ordered most recent first, capped by the
50-entry lookback window, hence never above 50, and 0 for an empty history. -/
theorem getCurrentStreak_spec (progress : List ProgressEntry) (userId : Nat) :
    getCurrentStreak false progress userId
      = min ((sortByAnsweredDesc (userProgress progress userId)).takeWhile (·.isCorrect)).length 50
    ∧ getCurrentStreak false progress userId ≤ 50
    ∧ (userProgress progress userId = [] → getCurrentStreak false progress userId = 0) := by
  have h1 : getCurrentStreak false progress userId
      = min ((sortByAnsweredDesc (userProgress progress userId)).takeWhile (·.isCorrect)).length
          50 := by
    unfold getCurrentStreak
    simp only [Bool.false_eq_true, if_false]
    rw [streakLoop_eq, takeWhile_map_len, takeWhile_take_len]
  refine ⟨h1, ?_, ?_⟩
  · rw [h1]
    exact Nat.min_le_right _ _
  · intro h
    rw [h1, h]
    simp [sortByAnsweredDesc, sortByLE]

/-- Witness for C5 at the empty history. -/
theorem getCurrentStreak_spec_witness : getCurrentStreak false [] 7 = 0 :=
  (getCurrentStreak_spec [] 7).2.2 rfl

/-! ## C10: RecordProgress on failed lookup and on success -/

/-- C10: when the question lookup fails RecordProgress returns the error and
the progress ledger is unchanged; when the call succeeds it appends exactly
one entry whose correctness flag is the verdict of CheckAnswer on the
submitted raw answer at write time. -/
theorem recordProgress_spec (fail : Option String) (st : DBState) (userId : Nat)
    (req : ProgressRequest) (now : Nat) :
    (findQuestion st.questions req.questionId = none →
      RecordProgress fail st userId req now = (Except.error errNoRows, st))
    ∧ (∀ q, findQuestion st.questions req.questionId = some q →
        (RecordProgress none st userId req now).2.progress
          = st.progress ++ [⟨st.nextProgressId, userId, req.questionId, req.userAnswer,
              CheckAnswer q req.userAnswer, now, req.timeTakenSeconds⟩]
        ∧ (RecordProgress none st userId req now).1
          = Except.ok ⟨st.nextProgressId, userId, req.questionId, req.userAnswer,
              CheckAnswer q req.userAnswer, now, req.timeTakenSeconds⟩) := by
  constructor
  · intro h
    unfold RecordProgress
    rw [h]
  · intro q h
    unfold RecordProgress
    rw [h]
    exact ⟨rfl, rfl⟩

/-- Witness for C10: recording a padded uppercase Paris against question 1
appends one entry judged correct. -/
theorem recordProgress_spec_witness :
    (RecordProgress none stUpd 5 ⟨1, " PARIS ", 4⟩ 11).2.progress
      = stUpd.progress ++ [⟨stUpd.nextProgressId, 5, 1, " PARIS ",
          CheckAnswer qOpenText " PARIS ", 11, 4⟩] :=
  ((recordProgress_spec none stUpd 5 ⟨1, " PARIS ", 4⟩ 11).2 qOpenText (by decide)).1

/-! ## C9: frame effect of a question edit on the progress table -/

/-- C9: a successful update whose request changes the stored answer deletes
exactly the progress rows of that question, for all users, leaving every row
of other questions in place; an update that keeps the answer deletes none. -/
theorem updateQuestion_frame (st : DBState) (id : Nat) (req : QuestionRequest)
    (userId : Nat) (role : String) (current : Question)
    (hfind : findQuestion st.questions id = some current)
    (hperm : CanEditQuestion userId role current = true)
    (htype : validTypes.contains (resolveType req current) = true) :
    (current.answer ≠ req.answer →
      (UpdateQuestionWithAuth none none st id req userId role).2.progress
        = st.progress.filter fun e => ¬ (e.questionId == id))
    ∧ (current.answer = req.answer →
      (UpdateQuestionWithAuth none none st id req userId role).2.progress = st.progress) := by
  unfold UpdateQuestionWithAuth
  rw [hfind]
  simp only [hperm, htype, not_true, if_false, Bool.not_eq_true]
  constructor
  · intro hne
    have hb : (current.answer != req.answer) = true := by simp [bne, hne]
    simp only [hb, if_true]
  · intro heq
    have hb : (current.answer != req.answer) = false := by simp [bne, heq]
    simp only [hb, Bool.false_eq_true, if_false]

/-- Witness for C9: changing the answer of question 1 removes its two rows
for both users and keeps the row of question 2. -/
theorem updateQuestion_frame_witness :
    (UpdateQuestionWithAuth none none stUpd 1 reqNewAnswer 9 "admin").2.progress
      = stUpd.progress.filter (fun e => ¬ (e.questionId == 1))
    ∧ stUpd.progress.filter (fun e => ¬ (e.questionId == 1)) = [entryOtherQ] :=
  ⟨(updateQuestion_frame stUpd 1 reqNewAnswer 9 "admin" qOpenText (by decide) (by decide)
      (by decide)).1 (by decide),
   by decide⟩

/-! ## C2: the update and the progress cascade are not atomic -/

/-- C2: at the concrete state stUpd, updating the answer of question 1 while
the progress DELETE fails returns the error, yet the question row already
carries the new answer and every stale progress row is retained: the
partial state the claim rules out is observable, because the two statements
run outside any transaction. -/
theorem updateQuestion_nonatomic_bug :
    (UpdateQuestionWithAuth none (some "disk I/O error") stUpd 1 reqNewAnswer 9 "admin").1
      = Except.error "disk I/O error"
    ∧ ((UpdateQuestionWithAuth none (some "disk I/O error") stUpd 1 reqNewAnswer 9
        "admin").2.questions.map (·.answer)) = ["Lyon"]
    ∧ (UpdateQuestionWithAuth none (some "disk I/O error") stUpd 1 reqNewAnswer 9
        "admin").2.progress = stUpd.progress
    ∧ (stUpd.progress.filter fun e => e.questionId == 1) ≠ [] := by decide

/-! ## C6: error propagation of the core reads -/

/-- C6 counterexample: with one correct history row the unfailed streak is 1,
yet when the streak query fails GetUserStats still succeeds and reports
streak 0: the failure is masked by a default instead of being propagated. -/
theorem getUserStats_masks_streak_failure :
    ((GetUserStats ⟨none, none, some "database is locked", none⟩ [qOpenText]
        [entryCorrectOld] 5).toOption.map (·.streak)) = some 0
    ∧ getCurrentStreak false [entryCorrectOld] 5 = 1 := by decide

/-- C6 amended: the selector propagates a failing read unchanged, and
GetUserStats propagates failures of its total-count, progress-aggregate and
category reads unchanged, but a failure of the streak sub-read is masked:
the call still succeeds and reports streak 0. -/
theorem errorPropagation_amended (qs : List Question) (ps : List ProgressEntry)
    (u c : Nat) (e : String) (rf : Nat → Nat → Nat) :
    GetNextQuestionsForUser (some e) rf qs ps u c = Except.error e
    ∧ GetUserStats ⟨some e, none, none, none⟩ qs ps u = Except.error e
    ∧ GetUserStats ⟨none, some e, none, none⟩ qs ps u = Except.error e
    ∧ GetUserStats ⟨none, none, none, some e⟩ qs ps u = Except.error e
    ∧ ((GetUserStats ⟨none, none, some e, none⟩ qs ps u).toOption.map (·.streak)) = some 0 := by
  refine ⟨rfl, rfl, rfl, rfl, rfl⟩

/-! ## C3: the selector ordering -/

theorem tripleLE_trans ⦃a b c : Nat × Nat × Nat⦄ (h1 : tripleLE a b = true)
    (h2 : tripleLE b c = true) : tripleLE a c = true := by
  simp only [tripleLE, Bool.or_eq_true, Bool.and_eq_true, decide_eq_true_eq,
    beq_iff_eq] at h1 h2 ⊢
  omega

theorem tripleLE_total (a b : Nat × Nat × Nat) :
    tripleLE a b = true ∨ tripleLE b a = true := by
  simp only [tripleLE, Bool.or_eq_true, Bool.and_eq_true, decide_eq_true_eq,
    beq_iff_eq]
  omega

theorem selLE_trans (progress : List ProgressEntry) (userId : Nat)
    ⦃a b c : Question⦄ (h1 : selLE progress userId a b = true)
    (h2 : selLE progress userId b c = true) : selLE progress userId a c = true :=
  tripleLE_trans h1 h2

theorem selLE_total (progress : List ProgressEntry) (userId : Nat) (a b : Question) :
    selLE progress userId a b = true ∨ selLE progress userId b a = true :=
  tripleLE_total _ _

/-- The pairwise ordering the claim states between two returned questions:
never-answered rows precede answered ones, a last-incorrect row precedes a
last-correct one, and equal outcomes are ordered by the last answered
instant ascending. -/
def claimSelOrder (progress : List ProgressEntry) (userId : Nat) (a b : Question) : Prop :=
  (lastProgress progress userId b.id = none → lastProgress progress userId a.id = none)
  ∧ (∀ ea eb, lastProgress progress userId a.id = some ea →
      lastProgress progress userId b.id = some eb →
      (eb.isCorrect = false → ea.isCorrect = false)
      ∧ (ea.isCorrect = eb.isCorrect → ea.answeredAt ≤ eb.answeredAt))

theorem selLE_claim (progress : List ProgressEntry) (userId : Nat) {a b : Question}
    (h : selLE progress userId a b = true) : claimSelOrder progress userId a b := by
  unfold selLE selKey at h
  unfold claimSelOrder
  cases ha : lastProgress progress userId a.id with
  | none =>
    exact ⟨fun _ => rfl, fun ea eb hea heb => Option.noConfusion hea⟩
  | some ea =>
    rw [ha] at h
    cases hb : lastProgress progress userId b.id with
    | none =>
      rw [hb] at h
      simp [tripleLE] at h
    | some eb =>
      rw [hb] at h
      refine ⟨fun hbn => Option.noConfusion hbn, ?_⟩
      intro ea' eb' hea' heb'
      obtain rfl : ea' = ea := (Option.some.injEq ea' ea).mp hea'.symm
      obtain rfl : eb' = eb := (Option.some.injEq eb' eb).mp heb'.symm
      have h2 : tripleLE (1, if ea'.isCorrect then 1 else 0, ea'.answeredAt)
          (1, if eb'.isCorrect then 1 else 0, eb'.answeredAt) = true := h
      constructor
      · intro hcF
        rw [hcF] at h2
        cases hcA : ea'.isCorrect
        · rfl
        · rw [hcA] at h2
          simp [tripleLE] at h2
      · intro hEq
        rw [hEq] at h2
        cases hc : eb'.isCorrect <;> rw [hc] at h2 <;>
          simp only [tripleLE, Bool.or_eq_true, Bool.and_eq_true, decide_eq_true_eq,
            beq_iff_eq] at h2 <;>
          omega

theorem shuffleIfChoiceType_id (r : Nat → Nat) (q : Question) :
    (shuffleIfChoiceType r q).id = q.id := by
  unfold shuffleIfChoiceType
  split <;> rfl

theorem shuffleIfChoiceType_status (r : Nat → Nat) (q : Question) :
    (shuffleIfChoiceType r q).status = q.status := by
  unfold shuffleIfChoiceType
  split <;> rfl

/-- C3: the selector returns at most count rows, all approved, ordered so
that never-answered questions precede ever-answered ones, last-incorrect
precede last-correct among the answered, and remaining ties are ordered by
the last answered instant ascending; the non-failing call returns exactly
this list. -/
theorem selectNext_spec (rf : Nat → Nat → Nat) (questions : List Question)
    (progress : List ProgressEntry) (userId count : Nat) :
    (selectNextRows rf questions progress userId count).length ≤ count
    ∧ (∀ q ∈ selectNextRows rf questions progress userId count, q.status = "approved")
    ∧ (selectNextRows rf questions progress userId count).Pairwise
        (claimSelOrder progress userId)
    ∧ GetNextQuestionsForUser none rf questions progress userId count
        = Except.ok (selectNextRows rf questions progress userId count) := by
  refine ⟨?_, ?_, ?_, rfl⟩
  · unfold selectNextRows
    rw [List.length_map, List.length_take]
    exact Nat.min_le_left _ _
  · intro q hq
    unfold selectNextRows at hq
    obtain ⟨a, ha, rfl⟩ := List.mem_map.mp hq
    have ha2 : a ∈ sortByLE (selLE progress userId)
        (questions.filter fun q => q.status == "approved") :=
      (List.take_sublist _ _).subset ha
    have ha3 : a ∈ questions.filter fun q => q.status == "approved" :=
      (sortByLE_perm _ _).mem_iff.mp ha2
    have hap := (List.mem_filter.mp ha3).2
    rw [shuffleIfChoiceType_status]
    simpa using hap
  · unfold selectNextRows
    rw [List.pairwise_map]
    have hsorted := pairwise_sortByLE (selLE progress userId)
      (selLE_trans progress userId) (selLE_total progress userId)
      (questions.filter fun q => q.status == "approved")
    have htake := List.Pairwise.sublist (List.take_sublist count _) hsorted
    refine htake.imp ?_
    intro a b hab
    have hc := selLE_claim progress userId hab
    unfold claimSelOrder at hc ⊢
    rw [shuffleIfChoiceType_id, shuffleIfChoiceType_id]
    exact hc

end QuizzApi
